import Mathlib

/-!
Verification development for the wa-catalog-feed repository
(scripts/build_feed.py and scripts/build_site.py).

The Python sources are shallowly embedded below. Strings are Lean
Strings; Python str.strip is modelled on the ASCII whitespace set;
Python str.upper and the regex digit class are modelled on ASCII
(all data relevant to the claims is ASCII). Python dict rows are
modelled by a structure holding the columns the scripts consume;
a missing column and an empty cell are identified, exactly as the
scripts do via (src.get(k) or "") and parse_price handling both
None and "" the same way. decimal.Decimal values produced by
parse_price are nonnegative digit literals, modelled by a mantissa
and a decimal scale; the .2f format uses round-half-even, the
default Decimal context rounding.
-/

namespace WaCatalog

/-- ASCII whitespace set stripped by Python str.strip(). -/
def isPySpace (c : Char) : Bool :=
  c = ' ' || c = '\t' || c = '\n' || c = '\r' || c = '\x0b' || c = '\x0c'

/-- Python str.strip() on a character list: drop whitespace from both ends. -/
def stripL (l : List Char) : List Char :=
  List.rdropWhile isPySpace (l.dropWhile isPySpace)

/-- Python (s or "").strip(). -/
def pyStrip (s : String) : String := ⟨stripL s.data⟩

/-- Python str.upper(), ASCII model. -/
def pyUpper (s : String) : String := ⟨s.data.map Char.toUpper⟩

/-- Python sep.join(parts) on character lists. -/
def joinL (sep : List Char) : List (List Char) → List Char
  | [] => []
  | [l] => l
  | l :: l2 :: ls => l ++ sep ++ joinL sep (l2 :: ls)

/-- Python "|".join(parts). -/
def pyJoinPipe (parts : List String) : String := ⟨joinL ['|'] (parts.map String.data)⟩

/-- Python "\n".join(lines). -/
def pyJoinNL (lines : List String) : String := ⟨joinL ['\n'] (lines.map String.data)⟩

/-- Numeric value of a list of ASCII digits. -/
def natOfDigits (l : List Char) : Nat :=
  l.foldl (fun a c => 10 * a + (c.toNat - 48)) 0

/-- Decimal digits of a natural number, with explicit fuel so that the
kernel evaluates it structurally. -/
def natDigitsAux : Nat → Nat → List Char
  | 0, _ => []
  | fuel+1, n =>
    if n < 10 then [Char.ofNat (48 + n)]
    else natDigitsAux fuel (n / 10) ++ [Char.ofNat (48 + n % 10)]

/-- Decimal digit string of a natural number. -/
def natDigits (n : Nat) : List Char := natDigitsAux (n + 1) n

/-- Model of a decimal.Decimal value as produced by parse_price:
a nonnegative mantissa together with a decimal scale,
standing for mant / 10 ^ scale. -/
structure PyDecimal where
  mant : Nat
  scale : Nat
deriving DecidableEq

/-- Rational value of a PyDecimal. -/
def PyDecimal.toRat (d : PyDecimal) : ℚ := (d.mant : ℚ) / (10 : ℚ) ^ d.scale

/-- Python s.replace(",", ""). -/
def removeCommas (l : List Char) : List Char := l.filter (fun c => c ≠ ',')

/-- Model of re.search(r"(\d+(?:\.\d+)?)", s): scan to the first digit,
take the maximal digit run, then greedily an optional fraction of a
dot followed by at least one digit. Returns the matched text. -/
def firstNumber : List Char → Option (List Char)
  | [] => none
  | c :: rest =>
    if c.isDigit then
      let intDigits := c :: rest.takeWhile Char.isDigit
      match rest.dropWhile Char.isDigit with
      | '.' :: r2 =>
        if r2.takeWhile Char.isDigit = [] then some intDigits
        else some (intDigits ++ '.' :: r2.takeWhile Char.isDigit)
      | _ => some intDigits
    else firstNumber rest

/-- Decimal(token) for a matched token of the shape digits followed by an
optional dot and digits. -/
def decimalOfToken (t : List Char) : PyDecimal :=
  let ip := t.takeWhile Char.isDigit
  let fp := match t.dropWhile Char.isDigit with
    | '.' :: r => r
    | _ => []
  ⟨natOfDigits (ip ++ fp), fp.length⟩

/-- scripts/build_feed.py parse_price: strip, reject empty, remove commas,
extract the first number, convert with Decimal. The Decimal conversion of
a matched token never raises, so the except branch is dead code. The
None input case coincides with the "" case. -/
def parse_price (v : String) : Option PyDecimal :=
  let s := pyStrip v
  if s = "" then none
  else
    match firstNumber (removeCommas s.data) with
    | none => none
    | some t => some (decimalOfToken t)

/-- Value of a PyDecimal in hundredths, rounded half-even: the rounding
that the default Decimal context applies for the .2f format. -/
def hundredths (d : PyDecimal) : Nat :=
  if d.scale ≤ 2 then d.mant * 10 ^ (2 - d.scale)
  else
    let p := 10 ^ (d.scale - 2)
    let q := d.mant / p
    let r := d.mant % p
    if 2 * r < p then q
    else if p < 2 * r then q + 1
    else if q % 2 = 0 then q else q + 1

/-- Two decimal digits with a leading zero when needed. -/
def pad2 (n : Nat) : List Char := if n < 10 then '0' :: natDigits n else natDigits n

/-- Python f-string format of a nonnegative Decimal with .2f. -/
def formatDec2 (d : PyDecimal) : String :=
  let n := hundredths d
  ⟨natDigits (n / 100) ++ '.' :: pad2 (n % 100)⟩

/-! SHA-1, as used by hashlib.sha1 in stable_unique_id. Words are
naturals reduced mod 2 ^ 32. -/

/-- Truncate to a 32-bit word. -/
def w32 (n : Nat) : Nat := n % 4294967296

/-- Rotate a 32-bit word left by k. -/
def rotl (k x : Nat) : Nat := w32 ((x <<< k) ||| (x >>> (32 - k)))

/-- UTF-8 encoding of one character, as bytes. -/
def utf8Char (c : Char) : List Nat :=
  let n := c.toNat
  if n < 128 then [n]
  else if n < 2048 then [192 ||| (n >>> 6), 128 ||| (n &&& 63)]
  else if n < 65536 then [224 ||| (n >>> 12), 128 ||| ((n >>> 6) &&& 63), 128 ||| (n &&& 63)]
  else [240 ||| (n >>> 18), 128 ||| ((n >>> 12) &&& 63), 128 ||| ((n >>> 6) &&& 63), 128 ||| (n &&& 63)]

/-- Python s.encode("utf-8") as a byte list. -/
def strUtf8 (s : String) : List Nat := s.data.flatMap utf8Char

/-- Big-endian bytes of a natural, fixed width. -/
def beBytes : Nat → Nat → List Nat
  | 0, _ => []
  | k+1, n => beBytes k (n >>> 8) ++ [n % 256]

/-- SHA-1 message padding. -/
def sha1Pad (msg : List Nat) : List Nat :=
  let len := msg.length
  let k := (119 - len % 64) % 64
  msg ++ 128 :: List.replicate k 0 ++ beBytes 8 (8 * len)

/-- Split into 64-byte chunks, with fuel for structural evaluation. -/
def chunks64F : Nat → List Nat → List (List Nat)
  | 0, _ => []
  | _, [] => []
  | fuel+1, l => l.take 64 :: chunks64F fuel (l.drop 64)

/-- Split a byte list into 64-byte chunks. -/
def chunks64 (l : List Nat) : List (List Nat) := chunks64F l.length l

/-- Pack bytes into big-endian 32-bit words. -/
def packWords : List Nat → List Nat
  | b0 :: b1 :: b2 :: b3 :: rest =>
    ((((b0 <<< 8) ||| b1) <<< 8 ||| b2) <<< 8 ||| b3) :: packWords rest
  | _ => []

/-- SHA-1 message schedule: extend 16 words to 80, accumulating in
reverse so that the four taps are the list heads. -/
def expandF : Nat → List Nat → List Nat
  | 0, acc => acc.reverse
  | fuel+1, acc =>
    let nw := rotl 1 (acc.getD 2 0 ^^^ acc.getD 7 0 ^^^ acc.getD 13 0 ^^^ acc.getD 15 0)
    expandF fuel (nw :: acc)

/-- The 80-entry SHA-1 message schedule of a 16-word chunk. -/
def expandWords (ws : List Nat) : List Nat := expandF 64 ws.reverse

/-- SHA-1 round function by round index. -/
def sha1F (i b c d : Nat) : Nat :=
  if i < 20 then (b &&& c) ||| ((b ^^^ 4294967295) &&& d)
  else if i < 40 then b ^^^ c ^^^ d
  else if i < 60 then (b &&& c) ||| (b &&& d) ||| (c &&& d)
  else b ^^^ c ^^^ d

/-- SHA-1 round constant by round index. -/
def sha1K (i : Nat) : Nat :=
  if i < 20 then 1518500249
  else if i < 40 then 1859775393
  else if i < 60 then 2400959708
  else 3395469782

/-- The 80 SHA-1 rounds over the schedule. -/
def sha1Rounds : Nat → List Nat → Nat × Nat × Nat × Nat × Nat → Nat × Nat × Nat × Nat × Nat
  | _, [], st => st
  | i, w :: ws, (a, b, c, d, e) =>
    let t := w32 (rotl 5 a + sha1F i b c d + e + sha1K i + w)
    sha1Rounds (i + 1) ws (t, a, rotl 30 b, c, d)

/-- One SHA-1 compression step over a 64-byte chunk. -/
def sha1Chunk (h : Nat × Nat × Nat × Nat × Nat) (chunk : List Nat) : Nat × Nat × Nat × Nat × Nat :=
  let (a, b, c, d, e) := sha1Rounds 0 (expandWords (packWords chunk)) h
  (w32 (h.1 + a), w32 (h.2.1 + b), w32 (h.2.2.1 + c), w32 (h.2.2.2.1 + d), w32 (h.2.2.2.2 + e))

/-- SHA-1 initial state. -/
def sha1Init : Nat × Nat × Nat × Nat × Nat :=
  (1732584193, 4023233417, 2562383102, 271733878, 3285377520)

/-- Lowercase hex digit. -/
def hexDigitChar (n : Nat) : Char := if n < 10 then Char.ofNat (48 + n) else Char.ofNat (87 + n)

/-- Fixed-width lowercase hex of a word. -/
def hexFixed : Nat → Nat → List Char
  | 0, _ => []
  | k+1, n => hexFixed k (n >>> 4) ++ [hexDigitChar (n % 16)]

/-- hashlib.sha1(bytes).hexdigest(). -/
def sha1Hex (msg : List Nat) : List Char :=
  let (a, b, c, d, e) := (chunks64 (sha1Pad msg)).foldl sha1Chunk sha1Init
  hexFixed 8 a ++ hexFixed 8 b ++ hexFixed 8 c ++ hexFixed 8 d ++ hexFixed 8 e

/-- hashlib.sha1(s.encode("utf-8")).hexdigest()[:10]. -/
def sha1Hex10 (s : String) : String := ⟨(sha1Hex (strUtf8 s)).take 10⟩

/-! The source-row data model and scripts/build_feed.py. -/

/-- A source CSV row, restricted to the columns the scripts consume.
The commission field holds the "Commission" column and discount_price
the configured price column (default "Discount Price"). A column that
is missing from the CSV behaves as the empty string, exactly as the
scripts read it. -/
structure SourceRow where
  market : String
  asin : String
  title : String
  keyword : String
  store : String
  remark : String
  link : String
  image_url : String
  commission : String
  status : String
  discount_price : String
deriving DecidableEq

/-- scripts/build_feed.py normalize_market. -/
def normalize_market (m : String) : String := pyUpper (pyStrip m)

/-- scripts/build_feed.py normalize_asin. -/
def normalize_asin (a : String) : String := pyUpper (pyStrip a)

/-- CURRENCY_BY_MARKET.get(market, "USD"). -/
def currency_by_market (m : String) : String :=
  if m = "US" then "USD"
  else if m = "UK" then "GBP"
  else if m = "DE" then "EUR"
  else if m = "FR" then "EUR"
  else if m = "IT" then "EUR"
  else if m = "ES" then "EUR"
  else if m = "CA" then "CAD"
  else if m = "JP" then "JPY"
  else "USD"

/-- FLAG_BY_MARKET.get(market, ""). -/
def flag_by_market (m : String) : String :=
  if m = "US" then "🇺🇸"
  else if m = "UK" then "🇬🇧"
  else if m = "DE" then "🇩🇪"
  else if m = "FR" then "🇫🇷"
  else if m = "IT" then "🇮🇹"
  else if m = "ES" then "🇪🇸"
  else if m = "CA" then "🇨🇦"
  else if m = "JP" then "🇯🇵"
  else ""

/-- scripts/build_feed.py stable_unique_id. -/
def stable_unique_id (base_id store keyword remark link image_url commission status : String) :
    String :=
  let raw := pyJoinPipe
    [base_id, pyStrip store, pyStrip keyword, pyStrip remark, pyStrip link,
     pyStrip image_url, pyStrip commission, pyStrip status]
  base_id ++ "_" ++ sha1Hex10 raw

/-- The description lines of build_rows and of build_site.py build_desc:
present-only lines for keyword, store, remark, each with its label. -/
def descLines (keyword store remark : String) : List String :=
  (if keyword = "" then [] else ["Keyword: " ++ keyword]) ++
  (if store = "" then [] else ["Store: " ++ store]) ++
  (if remark = "" then [] else ["remark: " ++ remark])

/-- The required-field check of build_rows and map_row: market, asin,
title, link and image_url must be nonempty after normalization. -/
def required_ok (src : SourceRow) : Bool :=
  !(normalize_market src.market = "" || normalize_asin src.asin = "" ||
    pyStrip src.title = "" || pyStrip src.link = "" || pyStrip src.image_url = "")

/-- The output record shape of build_rows (OUT_FIELDS). -/
structure FeedRow where
  id : String
  item_group_id : String
  title : String
  description : String
  availability : String
  condition : String
  price : String
  link : String
  image_link : String
  brand : String
deriving DecidableEq

/-- The loop body of build_rows for one row that passed the check. -/
def mk_feed_row (src : SourceRow) : FeedRow :=
  let market := normalize_market src.market
  let asin := normalize_asin src.asin
  let title := pyStrip src.title
  let keyword := pyStrip src.keyword
  let store := pyStrip src.store
  let remark := pyStrip src.remark
  let link := pyStrip src.link
  let image_url := pyStrip src.image_url
  let commission := pyStrip src.commission
  let status := pyStrip src.status
  let currency := currency_by_market market
  let price := (parse_price src.discount_price).getD ⟨0, 0⟩
  let base_id := market ++ "_" ++ asin
  let unique_id := stable_unique_id base_id store keyword remark link image_url commission status
  let flag := flag_by_market market
  { id := unique_id
    item_group_id := base_id
    title := "(" ++ market ++ ")" ++ flag ++ title
    description := pyStrip (pyJoinNL (descLines keyword store remark))
    availability := "in stock"
    condition := "new"
    price := formatDec2 price ++ " " ++ currency
    link := link
    image_link := image_url
    brand := if store = "" then "Generic" else store }

/-- One iteration of the build_rows loop: skip the row or emit one FeedRow. -/
def map_feed_row (src : SourceRow) : Option FeedRow :=
  if required_ok src then some (mk_feed_row src) else none

/-- Python string comparison: strict lexicographic order on the code
points, as list.sort compares str values. -/
def lexLtCh : List Char → List Char → Bool
  | [], [] => false
  | [], _ :: _ => true
  | _ :: _, [] => false
  | a :: as, b :: bs =>
    if a.toNat < b.toNat then true
    else if b.toNat < a.toNat then false
    else lexLtCh as bs

/-- Python strict order on strings. -/
def strLt (a b : String) : Bool := lexLtCh a.data b.data

/-- Python non-strict order on strings. -/
def strLe (a b : String) : Bool := strLt a b || a == b

/-- Python lexicographic comparison of pairs: compare the first
components, on a tie compare the rest. -/
def lex2 {α β : Type} [DecidableEq α] (lt1 : α → α → Bool) (le2 : β → β → Bool)
    (x y : α × β) : Bool :=
  lt1 x.1 y.1 || (decide (x.1 = y.1) && le2 x.2 y.2)

/-- The sort key of build_rows: (item_group_id, title, link, id). -/
def feedKey (r : FeedRow) : String × String × String × String :=
  (r.item_group_id, r.title, r.link, r.id)

/-- The build_rows sort order: Python tuple comparison of the keys. -/
def keyLE (a b : FeedRow) : Bool :=
  lex2 strLt (lex2 strLt (lex2 strLt strLe)) (feedKey a) (feedKey b)

/-- scripts/build_feed.py build_rows: map the loop over the source rows,
then sort in place by the composite key. list.sort is a stable sort and
insertion sort on the non-strict key order is stable, so it models the
sort exactly. -/
def build_rows (src_rows : List SourceRow) : List FeedRow :=
  (src_rows.filterMap map_feed_row).insertionSort (fun a b => keyLE a b = true)

/-- The id column of the built rows. -/
def feedIds (src_rows : List SourceRow) : List String :=
  (build_rows src_rows).map FeedRow.id

/-! scripts/build_site.py. Its norm, normalize_market, normalize_asin
and CURRENCY_BY_MARKET coincide with the feed script definitions above;
its parse_price differs only in returning Decimal("0") where the feed
parser returns None, which downstream is the same substitution. -/

/-- Python str.replace(pat, rep) for a single-character pattern. -/
def replaceChar (c : Char) (rep : List Char) : List Char → List Char
  | [] => []
  | x :: xs => if x = c then rep ++ replaceChar c rep xs else x :: replaceChar c rep xs

/-- The chained replaces of safe_html on a character list: ampersand
first, then the angle brackets, then the double quote, in source order. -/
def escAll (l : List Char) : List Char :=
  replaceChar '"' ("&quot;".data)
    (replaceChar '>' ("&gt;".data)
      (replaceChar '<' ("&lt;".data)
        (replaceChar '&' ("&amp;".data) l)))

/-- scripts/build_site.py safe_html. -/
def safe_html (s : String) : String := ⟨escAll s.data⟩

/-- The per-character escape that the replace chain amounts to. -/
def escChar (c : Char) : List Char :=
  if c = '&' then ['&', 'a', 'm', 'p', ';']
  else if c = '<' then ['&', 'l', 't', ';']
  else if c = '>' then ['&', 'g', 't', ';']
  else if c = '"' then ['&', 'q', 'u', 'o', 't', ';']
  else [c]

/-- scripts/build_site.py build_desc. -/
def build_desc (keyword store remark : String) : String :=
  pyStrip (pyJoinNL (descLines keyword store remark))

/-- The normalized row record produced by map_row. -/
structure SiteRow where
  market : String
  asin : String
  title : String
  title_raw : String
  keyword : String
  store : String
  remark : String
  desc : String
  price : String
  link : String
  image : String
deriving DecidableEq

/-- scripts/build_site.py map_row: normalize, validate, price and format.
Its parse_price is parse_price above with None mapped to Decimal("0"). -/
def map_row (src : SourceRow) : Option SiteRow :=
  let market := normalize_market src.market
  let asin := normalize_asin src.asin
  let title := pyStrip src.title
  let link := pyStrip src.link
  let image_url := pyStrip src.image_url
  let keyword := pyStrip src.keyword
  let store := pyStrip src.store
  let remark := pyStrip src.remark
  if market = "" ∨ asin = "" ∨ title = "" ∨ link = "" ∨ image_url = "" then none
  else
    let price := (parse_price src.discount_price).getD ⟨0, 0⟩
    let currency := currency_by_market market
    let flag := flag_by_market market
    some
      { market := market
        asin := asin
        title := "(" ++ market ++ ")" ++ flag ++ title
        title_raw := title
        keyword := keyword
        store := store
        remark := remark
        desc := build_desc keyword store remark
        price := formatDec2 price ++ " " ++ currency
        link := link
        image := image_url }

/-- The per-market sort key of group_by_market: (asin, title, link, image). -/
def siteKey (r : SiteRow) : String × String × String × String :=
  (r.asin, r.title, r.link, r.image)

/-- The group_by_market sort order. -/
def siteLE (a b : SiteRow) : Bool :=
  lex2 strLt (lex2 strLt (lex2 strLt strLe)) (siteKey a) (siteKey b)

/-- The index-page sort key of main: (market, asin, title, link). -/
def allKey (r : SiteRow) : String × String × String × String :=
  (r.market, r.asin, r.title, r.link)

/-- The index-page sort order. -/
def allLE (a b : SiteRow) : Bool :=
  lex2 strLt (lex2 strLt (lex2 strLt strLe)) (allKey a) (allKey b)

/-- group_by_market(rows).get(m, []): the dict groups rows by market
preserving encounter order and each group is sorted stably in place, so
the lookup is the stable sort of the subsequence with that market. -/
def market_items (rows : List SiteRow) (m : String) : List SiteRow :=
  (rows.filter (fun r => r.market = m)).insertionSort (fun a b => siteLE a b = true)

/-- The all_items list of main: extend per configured market in order,
then sort by (market, asin, title, link). markets models the MARKETS
configuration list; each entry is stripped and upper-cased as in main. -/
def all_items (markets : List String) (rows : List SiteRow) : List SiteRow :=
  (markets.flatMap (fun m => market_items rows (pyUpper (pyStrip m)))).insertionSort
    (fun a b => allLE a b = true)

/-- The items rendered on the page of one configured market in main. -/
def market_page_items (markets_rows : List SiteRow) (m : String) : List SiteRow :=
  market_items markets_rows (pyUpper (pyStrip m))

/-- The literal segments of the product card f-string in product_grid. -/
def cardA : String := "\n<div class=\"card\">\n  <div class=\"thumb\"><img src=\""

/-- Card literal between the image link and the alt text. -/
def cardB : String := "\" alt=\""

/-- Card literal between the alt text and the title element. -/
def cardC : String := "\" loading=\"lazy\"/></div>\n  <div class=\"cbody\">\n    <div class=\"ctitle\">"

/-- Card literal between the title and the description element. -/
def cardD : String := "</div>\n    <div class=\"cmeta\">"

/-- Card literal between the description and the price element. -/
def cardE : String := "</div>\n    <div class=\"cfoot\">\n      <div class=\"price\">"

/-- Card literal between the price and the link. -/
def cardF : String := "</div>\n      <a class=\"btn\" href=\""

/-- Card literal closing the card after the link. -/
def cardG : String := "\" target=\"_blank\" rel=\"noopener\">Open</a>\n    </div>\n  </div>\n</div>\n"

/-- One product card of product_grid: the f-string interpolating the
item fields, each passed through safe_html. -/
def product_card (it : SiteRow) : String :=
  cardA ++ safe_html it.image ++ cardB ++ safe_html it.title ++ cardC ++
  safe_html it.title ++ cardD ++ safe_html it.desc ++ cardE ++
  safe_html it.price ++ cardF ++ safe_html it.link ++ cardG

/-- scripts/build_site.py product_grid. -/
def product_grid (items : List SiteRow) : String :=
  "<div class=\"grid\">\n" ++ pyJoinNL (items.map product_card) ++ "\n</div>"

/-- The string output of safe_html parses as a sequence of plain
non-ampersand characters and the four escape sequences safe_html
itself emits: every ampersand in such a string starts one of them. -/
inductive EscSeq : List Char → Prop
  | nil : EscSeq []
  | amp (l : List Char) : EscSeq l → EscSeq ('&' :: 'a' :: 'm' :: 'p' :: ';' :: l)
  | lt (l : List Char) : EscSeq l → EscSeq ('&' :: 'l' :: 't' :: ';' :: l)
  | gt (l : List Char) : EscSeq l → EscSeq ('&' :: 'g' :: 't' :: ';' :: l)
  | quot (l : List Char) : EscSeq l → EscSeq ('&' :: 'q' :: 'u' :: 'o' :: 't' :: ';' :: l)
  | other (c : Char) (l : List Char) : c ≠ '&' → EscSeq l → EscSeq (c :: l)

/-! Spec-side definitions, written from the specification text, used to
state the refinement claims against the code definitions above. -/

/-- Modelled from the spec (4.1): the first contiguous digit sequence of
a string, optionally extended by a decimal point and fractional digits,
phrased by dropping the non-digit prefix. -/
def firstNumberSpec (l : List Char) : Option (List Char) :=
  let rest := l.dropWhile (fun c => !c.isDigit)
  if rest = [] then none
  else
    let ds := rest.takeWhile Char.isDigit
    let after := rest.dropWhile Char.isDigit
    match after with
    | '.' :: r2 =>
      if r2.takeWhile Char.isDigit = [] then some ds
      else some (ds ++ '.' :: r2.takeWhile Char.isDigit)
    | _ => some ds

/-- Rational value of a matched numeric token. -/
def tokenValue (t : List Char) : ℚ := (decimalOfToken t).toRat

/-- Modelled from the spec (4.1): strip thousands-separator commas, then
the decimal value of the first number found, or no value. -/
def specParsePrice (v : String) : Option ℚ :=
  (firstNumberSpec (removeCommas v.data)).map tokenValue

/-- The rejection condition of the spec (4.2): one of the five required
fields is empty after trimming. -/
def missingRequired (src : SourceRow) : Prop :=
  pyStrip src.market = "" ∨ pyStrip src.asin = "" ∨ pyStrip src.title = "" ∨
  pyStrip src.link = "" ∨ pyStrip src.image_url = ""

/-- The trimmed tracked-field tuple of a source row: store, keyword,
remark, link, image url, commission, status. -/
def trackedOf (src : SourceRow) : List String :=
  [pyStrip src.store, pyStrip src.keyword, pyStrip src.remark, pyStrip src.link,
   pyStrip src.image_url, pyStrip src.commission, pyStrip src.status]

/-- The group id a source row receives. -/
def groupIdOf (src : SourceRow) : String :=
  normalize_market src.market ++ "_" ++ normalize_asin src.asin

/-- The joined hash input that stable_unique_id computes for a row. -/
def rawOf (src : SourceRow) : String := pyJoinPipe (groupIdOf src :: trackedOf src)

/-- No trimmed tracked field of the row contains the pipe separator. -/
def pipeFree (src : SourceRow) : Prop :=
  ∀ f ∈ trackedOf src, '|' ∉ f.data

/-! Concrete rows used to instantiate the theorems. -/

/-- The example row of the spec: market US, asin B001, title Widget,
price written as a dollar amount. -/
def exUS : SourceRow :=
  { market := "US", asin := "B001", title := "Widget", keyword := "", store := "",
    remark := "", link := "http://x", image_url := "http://i", commission := "",
    status := "", discount_price := "$19.99" }

/-- A valid row whose store field contains the pipe separator. -/
def exC1a : SourceRow :=
  { market := "US", asin := "B001", title := "T", keyword := "", store := "a|b",
    remark := "", link := "L", image_url := "I", commission := "", status := "",
    discount_price := "" }

/-- A valid row differing from exC1a in the store and keyword fields yet
producing the identical joined hash input. -/
def exC1b : SourceRow :=
  { market := "US", asin := "B001", title := "T", keyword := "b|", store := "a",
    remark := "", link := "L", image_url := "I", commission := "", status := "",
    discount_price := "" }

/-- A valid pipe-free row with store A. -/
def exW1 : SourceRow :=
  { market := "US", asin := "B001", title := "T", keyword := "", store := "A",
    remark := "", link := "L", image_url := "I", commission := "", status := "",
    discount_price := "" }

/-- A valid pipe-free row differing from exW1 only in the store field. -/
def exW2 : SourceRow :=
  { market := "US", asin := "B001", title := "T", keyword := "", store := "B",
    remark := "", link := "L", image_url := "I", commission := "", status := "",
    discount_price := "" }

/-- A valid row whose price cell contains no digit. -/
def exNoPrice : SourceRow :=
  { market := "de", asin := "b009", title := "Gadget", keyword := "", store := "",
    remark := "", link := "http://l", image_url := "http://i", commission := "",
    status := "", discount_price := "N/A" }

/-- A valid row with all three description fields present, padded. -/
def exDesc : SourceRow :=
  { market := "US", asin := "B001", title := "Widget", keyword := " kw ", store := "St",
    remark := "Need Text Review", link := "http://x", image_url := "http://i",
    commission := "", status := "", discount_price := "" }

/-- A valid row whose market ZZ is not a configured market. -/
def exZZ : SourceRow :=
  { market := "zz", asin := "B777", title := "Thing", keyword := "", store := "",
    remark := "", link := "http://l", image_url := "http://i", commission := "",
    status := "", discount_price := "1" }

/-- The normalized site row that map_row produces from exZZ. -/
def exZZsite : SiteRow :=
  { market := "ZZ", asin := "B777", title := "(ZZ)Thing", title_raw := "Thing",
    keyword := "", store := "", remark := "", desc := "", price := "1.00 USD",
    link := "http://l", image := "http://i" }

/-! Properties of the Python string and tuple orders. -/

theorem char_eq_of_toNat_eq {a b : Char} (h : a.toNat = b.toNat) : a = b :=
  Char.eq_of_val_eq (UInt32.ext h)

theorem lexLt_irrefl : ∀ l : List Char, lexLtCh l l = false
  | [] => rfl
  | a :: as => by simp [lexLtCh, lexLt_irrefl as]

theorem lexLt_asymm : ∀ a b : List Char, lexLtCh a b = true → lexLtCh b a = false
  | [], [] => by simp [lexLtCh]
  | [], _ :: _ => fun _ => rfl
  | _ :: _, [] => by simp [lexLtCh]
  | a :: as, b :: bs => by
    simp only [lexLtCh]
    by_cases h1 : a.toNat < b.toNat
    · intro _
      rw [if_neg (Nat.lt_asymm h1), if_pos h1]
    · by_cases h2 : b.toNat < a.toNat
      · simp [h1, h2]
      · simpa [h1, h2] using lexLt_asymm as bs

theorem lexLt_nil_right : ∀ l : List Char, lexLtCh l [] = false
  | [] => rfl
  | _ :: _ => rfl

theorem lexLt_trans : ∀ a b c : List Char,
    lexLtCh a b = true → lexLtCh b c = true → lexLtCh a c = true
  | [], b, [] => by simp [lexLt_nil_right b]
  | [], _, _ :: _ => by simp [lexLtCh]
  | a :: as, [], _ => by simp [lexLtCh]
  | a :: as, b :: bs, [] => by simp [lexLtCh]
  | a :: as, b :: bs, c :: cs => by
    simp only [lexLtCh]
    by_cases h1 : a.toNat < b.toNat
    · by_cases h2 : b.toNat < c.toNat
      · intro _ _; rw [if_pos (Nat.lt_trans h1 h2)]
      · by_cases h3 : c.toNat < b.toNat
        · simp [h2, h3]
        · intro _ _; rw [if_pos (show a.toNat < c.toNat by omega)]
    · by_cases h4 : b.toNat < a.toNat
      · simp [h1, h4]
      · by_cases h2 : b.toNat < c.toNat
        · intro _ _; rw [if_pos (show a.toNat < c.toNat by omega)]
        · by_cases h3 : c.toNat < b.toNat
          · simp [h2, h3]
          · have hac : ¬a.toNat < c.toNat := by omega
            have hca : ¬c.toNat < a.toNat := by omega
            simp only [if_neg h1, if_neg h4, if_neg h2, if_neg h3, if_neg hac, if_neg hca]
            exact lexLt_trans as bs cs

theorem lexLt_connex : ∀ a b : List Char,
    lexLtCh a b = false → lexLtCh b a = false → a = b
  | [], [] => by simp
  | [], _ :: _ => by simp [lexLtCh]
  | _ :: _, [] => by simp [lexLtCh]
  | a :: as, b :: bs => by
    simp only [lexLtCh]
    by_cases h1 : a.toNat < b.toNat
    · simp [h1]
    · by_cases h2 : b.toNat < a.toNat
      · simp [h1, h2]
      · have e : a = b :=
          char_eq_of_toNat_eq (Nat.le_antisymm (Nat.le_of_not_lt h2) (Nat.le_of_not_lt h1))
        simp only [if_neg h1, if_neg h2]
        intro ha hb
        rw [e, lexLt_connex as bs ha hb]

theorem strLt_trans {a b c : String} (h1 : strLt a b = true) (h2 : strLt b c = true) :
    strLt a c = true :=
  lexLt_trans a.data b.data c.data h1 h2

theorem strLt_asymm {a b : String} (h : strLt a b = true) : strLt b a = false :=
  lexLt_asymm a.data b.data h

theorem strLt_irrefl (a : String) : strLt a a = false := lexLt_irrefl a.data

theorem strLt_connex {a b : String} (h1 : strLt a b = false) (h2 : strLt b a = false) :
    a = b :=
  String.ext (lexLt_connex a.data b.data h1 h2)

theorem strLe_trans {a b c : String} (h1 : strLe a b = true) (h2 : strLe b c = true) :
    strLe a c = true := by
  simp only [strLe, Bool.or_eq_true, beq_iff_eq] at *
  rcases h1 with h1 | h1
  · rcases h2 with h2 | h2
    · exact Or.inl (strLt_trans h1 h2)
    · exact Or.inl (h2 ▸ h1)
  · rcases h2 with h2 | h2
    · exact Or.inl (h1 ▸ h2)
    · exact Or.inr (h1.trans h2)

theorem strLe_total (a b : String) : (strLe a b || strLe b a) = true := by
  simp only [strLe, Bool.or_eq_true, beq_iff_eq]
  cases h1 : strLt a b
  · cases h2 : strLt b a
    · exact Or.inl (Or.inr (strLt_connex h1 h2))
    · exact Or.inr (Or.inl rfl)
  · exact Or.inl (Or.inl rfl)

theorem strLe_antisymm {a b : String} (h1 : strLe a b = true) (h2 : strLe b a = true) :
    a = b := by
  simp only [strLe, Bool.or_eq_true, beq_iff_eq] at *
  rcases h1 with h1 | h1
  · rcases h2 with h2 | h2
    · exact absurd h2 (by simp [strLt_asymm h1])
    · exact h2.symm
  · exact h1

theorem lex2_trans {α β : Type} [DecidableEq α] {lt1 : α → α → Bool} {le2 : β → β → Bool}
    (hlt : ∀ x y z, lt1 x y = true → lt1 y z = true → lt1 x z = true)
    (hle : ∀ x y z, le2 x y = true → le2 y z = true → le2 x z = true) :
    ∀ p q r : α × β, lex2 lt1 le2 p q = true → lex2 lt1 le2 q r = true →
      lex2 lt1 le2 p r = true := by
  intro p q r hpq hqr
  simp only [lex2, Bool.or_eq_true, Bool.and_eq_true, decide_eq_true_eq] at *
  rcases hpq with h1 | ⟨e1, h1⟩
  · rcases hqr with h2 | ⟨e2, h2⟩
    · exact Or.inl (hlt _ _ _ h1 h2)
    · exact Or.inl (e2 ▸ h1)
  · rcases hqr with h2 | ⟨e2, h2⟩
    · exact Or.inl (e1 ▸ h2)
    · exact Or.inr ⟨e1.trans e2, hle _ _ _ h1 h2⟩

theorem lex2_total {α β : Type} [DecidableEq α] {lt1 : α → α → Bool} {le2 : β → β → Bool}
    (hconn : ∀ x y, lt1 x y = false → lt1 y x = false → x = y)
    (hle : ∀ x y, (le2 x y || le2 y x) = true) :
    ∀ p q : α × β, (lex2 lt1 le2 p q || lex2 lt1 le2 q p) = true := by
  intro p q
  simp only [lex2, Bool.or_eq_true, Bool.and_eq_true, decide_eq_true_eq]
  cases h1 : lt1 p.1 q.1
  · cases h2 : lt1 q.1 p.1
    · have e := hconn _ _ h1 h2
      rcases (Bool.or_eq_true _ _).mp (hle p.2 q.2) with h | h
      · exact Or.inl (Or.inr ⟨e, h⟩)
      · exact Or.inr (Or.inr ⟨e.symm, h⟩)
    · exact Or.inr (Or.inl rfl)
  · exact Or.inl (Or.inl rfl)

theorem lex2_antisymm {α β : Type} [DecidableEq α] {lt1 : α → α → Bool} {le2 : β → β → Bool}
    (hasymm : ∀ x y, lt1 x y = true → lt1 y x = false)
    (hle : ∀ x y, le2 x y = true → le2 y x = true → x = y) :
    ∀ p q : α × β, lex2 lt1 le2 p q = true → lex2 lt1 le2 q p = true → p = q := by
  intro p q hpq hqp
  simp only [lex2, Bool.or_eq_true, Bool.and_eq_true, decide_eq_true_eq] at *
  rcases hpq with h1 | ⟨e1, h1⟩
  · rcases hqp with h2 | ⟨e2, h2⟩
    · exact absurd h2 (by simp [hasymm _ _ h1])
    · exact absurd (e2 ▸ h1) (by simp [hasymm _ _ (e2 ▸ h1)])
  · rcases hqp with h2 | ⟨e2, h2⟩
    · exact absurd (e1 ▸ h2) (by simp [hasymm _ _ (e1 ▸ h2)])
    · exact Prod.ext e1 (hle _ _ h1 h2)

theorem tup4LE_trans {p q r : String × String × String × String}
    (h1 : lex2 strLt (lex2 strLt (lex2 strLt strLe)) p q = true)
    (h2 : lex2 strLt (lex2 strLt (lex2 strLt strLe)) q r = true) :
    lex2 strLt (lex2 strLt (lex2 strLt strLe)) p r = true := by
  refine lex2_trans ?_ ?_ p q r h1 h2
  · exact fun _ _ _ h h' => strLt_trans h h'
  · refine lex2_trans ?_ ?_
    · exact fun _ _ _ h h' => strLt_trans h h'
    · refine lex2_trans ?_ ?_
      · exact fun _ _ _ h h' => strLt_trans h h'
      · exact fun _ _ _ h h' => strLe_trans h h'

theorem tup4LE_total (p q : String × String × String × String) :
    (lex2 strLt (lex2 strLt (lex2 strLt strLe)) p q ||
      lex2 strLt (lex2 strLt (lex2 strLt strLe)) q p) = true := by
  refine lex2_total ?_ ?_ p q
  · exact fun _ _ h h' => strLt_connex h h'
  · refine lex2_total ?_ ?_
    · exact fun _ _ h h' => strLt_connex h h'
    · refine lex2_total ?_ ?_
      · exact fun _ _ h h' => strLt_connex h h'
      · exact strLe_total

theorem tup4LE_antisymm {p q : String × String × String × String}
    (h1 : lex2 strLt (lex2 strLt (lex2 strLt strLe)) p q = true)
    (h2 : lex2 strLt (lex2 strLt (lex2 strLt strLe)) q p = true) : p = q := by
  refine lex2_antisymm ?_ ?_ p q h1 h2
  · exact fun _ _ h => strLt_asymm h
  · refine lex2_antisymm ?_ ?_
    · exact fun _ _ h => strLt_asymm h
    · refine lex2_antisymm ?_ ?_
      · exact fun _ _ h => strLt_asymm h
      · exact fun _ _ h h' => strLe_antisymm h h'

theorem keyLE_trans {a b c : FeedRow} (h1 : keyLE a b = true) (h2 : keyLE b c = true) :
    keyLE a c = true := tup4LE_trans h1 h2

theorem keyLE_total (a b : FeedRow) : (keyLE a b || keyLE b a) = true :=
  tup4LE_total (feedKey a) (feedKey b)

theorem keyLE_antisymm {a b : FeedRow} (h1 : keyLE a b = true) (h2 : keyLE b a = true) :
    feedKey a = feedKey b := tup4LE_antisymm h1 h2

/-! Validation and counting lemmas. -/

theorem pyUpper_eq_empty {s : String} : pyUpper s = "" ↔ s = "" := by
  rw [String.ext_iff, String.ext_iff]
  simp [pyUpper]

theorem missingRequired_iff {src : SourceRow} :
    (normalize_market src.market = "" ∨ normalize_asin src.asin = "" ∨
      pyStrip src.title = "" ∨ pyStrip src.link = "" ∨ pyStrip src.image_url = "") ↔
    missingRequired src := by
  simp [missingRequired, normalize_market, normalize_asin, pyUpper_eq_empty]

theorem required_ok_eq_false {src : SourceRow} :
    required_ok src = false ↔ missingRequired src := by
  rw [← missingRequired_iff]
  unfold required_ok
  have hb : ∀ b : Bool, ((!b) = false ↔ b = true) := by decide
  rw [hb]
  simp only [Bool.or_eq_true, decide_eq_true_eq]
  tauto

theorem map_feed_row_eq_none {src : SourceRow} :
    map_feed_row src = none ↔ missingRequired src := by
  rw [← required_ok_eq_false]
  unfold map_feed_row
  cases h : required_ok src <;> simp [h]

theorem map_row_eq_none {src : SourceRow} :
    map_row src = none ↔ missingRequired src := by
  rw [← missingRequired_iff]
  simp only [map_row]
  split_ifs with h
  · simp [h]
  · simp [h]

theorem length_filterMap_add_countP {α β : Type} (f : α → Option β) :
    ∀ l : List α, (l.filterMap f).length + l.countP (fun a => (f a).isNone) = l.length
  | [] => rfl
  | a :: l => by
    have ih := length_filterMap_add_countP f l
    rw [List.filterMap_cons, List.countP_cons]
    cases h : f a
    · simp [h]
      omega
    · simp [h]
      omega

/-! Price-parser lemmas for C3. -/

theorem isPySpace_not_digit {c : Char} (h : isPySpace c = true) : c.isDigit = false := by
  simp only [isPySpace, Bool.or_eq_true, decide_eq_true_eq] at h
  rcases h with ((((h | h) | h) | h) | h) | h <;> subst h <;> decide

theorem isPySpace_ne_dot {c : Char} (h : isPySpace c = true) : c ≠ '.' := by
  simp only [isPySpace, Bool.or_eq_true, decide_eq_true_eq] at h
  rcases h with ((((h | h) | h) | h) | h) | h <;> subst h <;> decide

theorem isPySpace_ne_comma {c : Char} (h : isPySpace c = true) : c ≠ ',' := by
  simp only [isPySpace, Bool.or_eq_true, decide_eq_true_eq] at h
  rcases h with ((((h | h) | h) | h) | h) | h <;> subst h <;> decide

theorem firstNumber_eq_none_iff : ∀ l : List Char,
    firstNumber l = none ↔ ∀ c ∈ l, c.isDigit = false
  | [] => by simp [firstNumber]
  | c :: rest => by
    by_cases hc : c.isDigit
    · simp only [firstNumber, if_pos hc]
      constructor
      · intro h
        exfalso
        revert h
        split <;> (try split) <;> simp
      · intro h
        exact absurd (h c (by simp)) (by simp [hc])
    · simp only [firstNumber, if_neg hc]
      rw [firstNumber_eq_none_iff rest]
      constructor
      · intro h x hx
        rcases List.mem_cons.mp hx with rfl | hx
        · simpa using hc
        · exact h x hx
      · intro h x hx
        exact h x (List.mem_cons_of_mem _ hx)

theorem firstNumber_append_left : ∀ w : List Char, (∀ c ∈ w, c.isDigit = false) →
    ∀ l, firstNumber (w ++ l) = firstNumber l
  | [], _, l => rfl
  | x :: w, hw, l => by
    have hx : x.isDigit = false := hw x (by simp)
    rw [List.cons_append]
    simp only [firstNumber]
    rw [if_neg (by simp [hx])]
    exact firstNumber_append_left w (fun c hc => hw c (by simp [hc])) l

theorem takeWhile_append_fail {α : Type} (p : α → Bool) (w : List α)
    (hw : ∀ c ∈ w, p c = false) :
    ∀ l : List α, List.takeWhile p (l ++ w) = List.takeWhile p l
  | [] => by
    cases w with
    | nil => rfl
    | cons x xs => simp [List.takeWhile_cons, hw x (by simp)]
  | c :: l => by
    simp only [List.cons_append, List.takeWhile_cons]
    by_cases hc : p c
    · simp [hc, takeWhile_append_fail p w hw l]
    · simp [hc]

theorem dropWhile_append_fail {α : Type} (p : α → Bool) (w : List α)
    (hw : ∀ c ∈ w, p c = false) :
    ∀ l : List α, List.dropWhile p (l ++ w) = List.dropWhile p l ++ w
  | [] => by
    cases w with
    | nil => rfl
    | cons x xs => simp [List.dropWhile_cons, hw x (by simp)]
  | c :: l => by
    simp only [List.cons_append, List.dropWhile_cons]
    by_cases hc : p c
    · simp [hc, dropWhile_append_fail p w hw l]
    · simp [hc]

theorem firstNumber_append_right (w : List Char) (hwd : ∀ c ∈ w, c.isDigit = false)
    (hwdot : ∀ c ∈ w, c ≠ '.') :
    ∀ l, firstNumber (l ++ w) = firstNumber l
  | [] => by
    rw [List.nil_append]
    show firstNumber w = none
    exact (firstNumber_eq_none_iff w).mpr hwd
  | c :: l => by
    rw [List.cons_append]
    simp only [firstNumber]
    by_cases hc : c.isDigit
    · rw [if_pos hc, if_pos hc,
        takeWhile_append_fail Char.isDigit w hwd l, dropWhile_append_fail Char.isDigit w hwd l]
      cases hd : l.dropWhile Char.isDigit with
      | nil =>
        rw [List.nil_append]
        cases w with
        | nil => rfl
        | cons x xs =>
          have hx : x ≠ '.' := hwdot x (by simp)
          split
          · rename_i r2 heq
            exact absurd (by injection heq) hx
          · rfl
      | cons y d' =>
        rw [List.cons_append]
        by_cases hy : y = '.'
        · subst hy
          show (if ((d' ++ w).takeWhile Char.isDigit = []) then _ else _) =
            (if (d'.takeWhile Char.isDigit = []) then _ else _)
          rw [takeWhile_append_fail Char.isDigit w hwd d']
        · split
          · rename_i r2 heq
            exact absurd (by injection heq) hy
          · split
            · rename_i r2 heq
              exact absurd (by injection heq) hy
            · rfl
    · rw [if_neg hc, if_neg hc]
      exact firstNumber_append_right w hwd hwdot l

theorem firstNumberSpec_eq : ∀ l : List Char, firstNumberSpec l = firstNumber l
  | [] => rfl
  | c :: rest => by
    by_cases hc : c.isDigit
    · show firstNumberSpec (c :: rest) = firstNumber (c :: rest)
      unfold firstNumberSpec firstNumber
      rw [if_pos hc]
      rw [show List.dropWhile (fun c => !c.isDigit) (c :: rest) = c :: rest from by
        rw [List.dropWhile_cons, if_neg (by simp [hc])]]
      rw [if_neg (List.cons_ne_nil c rest)]
      rw [show List.takeWhile Char.isDigit (c :: rest) = c :: List.takeWhile Char.isDigit rest
          from by rw [List.takeWhile_cons, if_pos hc],
        show List.dropWhile Char.isDigit (c :: rest) = List.dropWhile Char.isDigit rest
          from by rw [List.dropWhile_cons, if_pos hc]]
    · show firstNumberSpec (c :: rest) = firstNumber (c :: rest)
      unfold firstNumberSpec firstNumber
      rw [if_neg hc]
      rw [show List.dropWhile (fun c => !c.isDigit) (c :: rest) =
          List.dropWhile (fun c => !c.isDigit) rest from by
        rw [List.dropWhile_cons, if_pos (by simp [hc])]]
      exact firstNumberSpec_eq rest

theorem rdropWhile_append_rtakeWhile {α : Type} (p : α → Bool) (m : List α) :
    List.rdropWhile p m ++ List.rtakeWhile p m = m := by
  unfold List.rdropWhile List.rtakeWhile
  rw [← List.reverse_append, List.takeWhile_append_dropWhile, List.reverse_reverse]

theorem data_decomp (l : List Char) :
    ∃ pre suf, (∀ c ∈ pre, isPySpace c = true) ∧ (∀ c ∈ suf, isPySpace c = true) ∧
      l = pre ++ stripL l ++ suf := by
  refine ⟨l.takeWhile isPySpace, List.rtakeWhile isPySpace (l.dropWhile isPySpace),
    fun c hc => List.mem_takeWhile_imp hc, fun c hc => List.mem_rtakeWhile_imp hc, ?_⟩
  unfold stripL
  rw [List.append_assoc, rdropWhile_append_rtakeWhile, List.takeWhile_append_dropWhile]

theorem removeCommas_of_space {w : List Char} (hw : ∀ c ∈ w, isPySpace c = true) :
    removeCommas w = w := by
  refine List.filter_eq_self.mpr fun a ha => ?_
  simpa using isPySpace_ne_comma (hw a ha)

theorem mem_removeCommas {c : Char} {l : List Char} :
    c ∈ removeCommas l ↔ c ∈ l ∧ c ≠ ',' := by
  simp [removeCommas, List.mem_filter]

theorem parse_price_firstNumber (v : String) :
    firstNumber (removeCommas v.data) = firstNumber (removeCommas (stripL v.data)) := by
  obtain ⟨pre, suf, hpre, hsuf, hdec⟩ := data_decomp v.data
  calc firstNumber (removeCommas v.data)
      = firstNumber (removeCommas (pre ++ stripL v.data ++ suf)) := by rw [← hdec]
    _ = firstNumber (pre ++ (removeCommas (stripL v.data) ++ suf)) := by
        simp only [removeCommas, List.filter_append]
        rw [show List.filter (fun c => decide ¬c = ',') pre = pre from
            List.filter_eq_self.mpr fun a ha => by simpa using isPySpace_ne_comma (hpre a ha),
          show List.filter (fun c => decide ¬c = ',') suf = suf from
            List.filter_eq_self.mpr fun a ha => by simpa using isPySpace_ne_comma (hsuf a ha),
          List.append_assoc]
    _ = firstNumber (removeCommas (stripL v.data) ++ suf) :=
        firstNumber_append_left pre (fun c hc => isPySpace_not_digit (hpre c hc)) _
    _ = firstNumber (removeCommas (stripL v.data)) :=
        firstNumber_append_right suf (fun c hc => isPySpace_not_digit (hsuf c hc))
          (fun c hc => isPySpace_ne_dot (hsuf c hc)) _

/-- C3: parse_price strips commas and returns the decimal value of the
first contiguous digit run, optionally extended by a decimal point and
fractional digits; it returns no value exactly when the input contains
no digit at all. The leading whitespace strip and the empty-string guard
of the code are value-irrelevant, which the refinement proves. -/
theorem C3_parse_price_spec (v : String) :
    (parse_price v).map PyDecimal.toRat = specParsePrice v
    ∧ (parse_price v = none ↔ ∀ c ∈ v.data, c.isDigit = false) := by
  have hdataeq : (pyStrip v).data = stripL v.data := rfl
  have hchain : firstNumber (removeCommas v.data) = firstNumber (removeCommas (stripL v.data)) :=
    parse_price_firstNumber v
  obtain ⟨pre, suf, hpre, hsuf, hdec⟩ := data_decomp v.data
  have hnodig : (∀ c ∈ removeCommas (stripL v.data), c.isDigit = false) ↔
      (∀ c ∈ v.data, c.isDigit = false) := by
    constructor
    · intro h c hc
      by_cases hcd : c.isDigit
      · rw [hdec] at hc
        rcases List.mem_append.mp hc with hc2 | hc2
        · rcases List.mem_append.mp hc2 with hc3 | hc3
          · exact absurd hcd (by simp [isPySpace_not_digit (hpre c hc3)])
          · have : c ∈ removeCommas (stripL v.data) :=
              mem_removeCommas.mpr ⟨hc3, by rintro rfl; exact absurd hcd (by decide)⟩
            exact h c this
        · exact absurd hcd (by simp [isPySpace_not_digit (hsuf c hc2)])
      · simpa using hcd
    · intro h c hc
      have : c ∈ v.data := by
        rw [hdec]
        exact List.mem_append.mpr (Or.inl (List.mem_append.mpr
          (Or.inr (mem_removeCommas.mp hc).1)))
      exact h c this
  by_cases hs : pyStrip v = ""
  · have hnil : stripL v.data = [] := by
      rw [← hdataeq, hs]
    constructor
    · show (parse_price v).map PyDecimal.toRat = (firstNumberSpec (removeCommas v.data)).map _
      rw [firstNumberSpec_eq, hchain, hnil]
      show (parse_price v).map PyDecimal.toRat = (firstNumber []).map _
      unfold parse_price
      rw [if_pos hs]
      rfl
    · unfold parse_price
      rw [if_pos hs]
      simp only [true_iff]
      rw [← hnodig, hnil]
      simp [removeCommas]
  · have hparse : parse_price v =
        match firstNumber (removeCommas (stripL v.data)) with
        | none => none
        | some t => some (decimalOfToken t) := by
      unfold parse_price
      rw [if_neg hs]
      rfl
    constructor
    · show _ = (firstNumberSpec (removeCommas v.data)).map tokenValue
      rw [firstNumberSpec_eq, hchain, hparse]
      cases firstNumber (removeCommas (stripL v.data)) with
      | none => rfl
      | some t => rfl
    · rw [hparse, ← hnodig, ← firstNumber_eq_none_iff]
      cases firstNumber (removeCommas (stripL v.data)) with
      | none => simp
      | some t => simp

/-! Strip and join lemmas for the identifier and description claims. -/

theorem dropWhile_head_false {α : Type} {p : α → Bool} :
    ∀ {l : List α} {x : α} {xs : List α}, List.dropWhile p l = x :: xs → p x = false
  | [], x, xs => by intro h; cases h
  | c :: rest, x, xs => by
    intro h
    rw [List.dropWhile_cons] at h
    by_cases hc : p c
    · rw [if_pos hc] at h
      exact dropWhile_head_false h
    · rw [if_neg hc] at h
      cases h
      simpa using hc

theorem stripL_eq_self {l : List Char}
    (h1 : ∀ c, l.head? = some c → isPySpace c = false)
    (h2 : ∀ c, l.getLast? = some c → isPySpace c = false) :
    stripL l = l := by
  cases l with
  | nil => rfl
  | cons c rest =>
    unfold stripL
    rw [List.dropWhile_cons, if_neg (by simp [h1 c rfl])]
    rw [List.rdropWhile_eq_self_iff]
    intro hl
    have := h2 ((c :: rest).getLast hl) (List.getLast?_eq_getLast _ hl)
    simp [this]

theorem stripL_head_not {l : List Char} :
    ∀ c, (stripL l).head? = some c → isPySpace c = false := by
  intro c hc
  cases hr : stripL l with
  | nil => rw [hr] at hc; cases hc
  | cons x xs =>
    rw [hr] at hc
    cases hc
    obtain ⟨t, ht⟩ := List.rdropWhile_prefix isPySpace (l.dropWhile isPySpace)
    unfold stripL at hr
    rw [hr] at ht
    exact dropWhile_head_false (l := l) (by rw [← List.cons_append, ht])

theorem stripL_last_not {l : List Char} :
    ∀ c, (stripL l).getLast? = some c → isPySpace c = false := by
  intro c hc
  have hne : stripL l ≠ [] := by
    intro h
    rw [h] at hc
    cases hc
  rw [List.getLast?_eq_getLast _ hne] at hc
  cases hc
  have := List.rdropWhile_last_not isPySpace (l.dropWhile isPySpace) hne
  simpa using this

theorem stripL_idem (l : List Char) : stripL (stripL l) = stripL l :=
  stripL_eq_self stripL_head_not stripL_last_not

theorem pyStrip_idem (s : String) : pyStrip (pyStrip s) = pyStrip s :=
  String.ext (stripL_idem s.data)

theorem joinL_ne_nil (sep : List Char) :
    ∀ ls : List (List Char), ls ≠ [] → (∀ l ∈ ls, l ≠ []) → joinL sep ls ≠ []
  | [], h, _ => absurd rfl h
  | [l], _, hne => by simpa [joinL] using hne l (by simp)
  | l :: l2 :: ls, _, hne => by
    simp only [joinL]
    intro h
    rcases List.append_eq_nil.mp (List.append_eq_nil.mp h).1 with ⟨h1, _⟩
    exact hne l (by simp) h1

theorem joinL_head_not (sep : List Char) (P : Char → Bool) :
    ∀ ls : List (List Char),
      (∀ l ∈ ls, ∃ c, l.head? = some c ∧ P c = false) →
      ∀ c, (joinL sep ls).head? = some c → P c = false
  | [], _, c => by intro hc; cases hc
  | [l], hls, c => by
    intro hc
    obtain ⟨c0, hc0, hP⟩ := hls l (by simp)
    simp only [joinL] at hc
    rw [hc0] at hc
    cases hc
    exact hP
  | l :: l2 :: ls, hls, c => by
    intro hc
    obtain ⟨c0, hc0, hP⟩ := hls l (by simp)
    simp only [joinL] at hc
    rw [List.append_assoc, List.head?_append, hc0] at hc
    cases hc
    exact hP

theorem joinL_last_not (sep : List Char) (P : Char → Bool) :
    ∀ ls : List (List Char),
      (∀ l ∈ ls, ∃ c, l.getLast? = some c ∧ P c = false) →
      ∀ c, (joinL sep ls).getLast? = some c → P c = false
  | [], _, c => by intro hc; cases hc
  | [l], hls, c => by
    intro hc
    obtain ⟨c0, hc0, hP⟩ := hls l (by simp)
    simp only [joinL] at hc
    rw [hc0] at hc
    cases hc
    exact hP
  | l :: l2 :: ls, hls, c => by
    intro hc
    have hne : ∀ x ∈ l2 :: ls, x ≠ [] := by
      intro x hx
      obtain ⟨c0, hc0, _⟩ := hls x (List.mem_cons_of_mem _ hx)
      intro hnil
      rw [hnil] at hc0
      cases hc0
    have hj : joinL sep (l2 :: ls) ≠ [] :=
      joinL_ne_nil sep (l2 :: ls) (by simp) hne
    simp only [joinL] at hc
    rw [List.getLast?_append, List.getLast?_eq_getLast _ hj] at hc
    cases hc
    exact joinL_last_not sep P (l2 :: ls)
      (fun x hx => hls x (List.mem_cons_of_mem _ hx)) _
      (List.getLast?_eq_getLast _ hj)

theorem append_sep_inj {sep : Char} :
    ∀ {a b x y : List Char}, sep ∉ a → sep ∉ b →
      a ++ sep :: x = b ++ sep :: y → a = b ∧ x = y
  | [], [], x, y => by
    intro _ _ h
    cases h
    exact ⟨rfl, rfl⟩
  | [], c :: b, x, y => by
    intro _ hb h
    rw [List.nil_append, List.cons_append] at h
    cases h
    exact absurd (by simp) hb
  | c :: a, [], x, y => by
    intro ha _ h
    rw [List.nil_append, List.cons_append] at h
    cases h
    exact absurd (by simp) ha
  | c :: a, d :: b, x, y => by
    intro ha hb h
    rw [List.cons_append, List.cons_append] at h
    injection h with h1 h2
    subst h1
    obtain ⟨ha2, hx⟩ := append_sep_inj (fun hm => ha (List.mem_cons_of_mem _ hm))
      (fun hm => hb (List.mem_cons_of_mem _ hm)) h2
    exact ⟨by rw [ha2], hx⟩

theorem joinL_pipe_inj :
    ∀ as bs : List (List Char), as.length = bs.length →
      (∀ l ∈ as, '|' ∉ l) → (∀ l ∈ bs, '|' ∉ l) →
      joinL ['|'] as = joinL ['|'] bs → as = bs
  | [], [], _, _, _, _ => rfl
  | [], _ :: _, hlen, _, _, _ => by simp at hlen
  | _ :: _, [], hlen, _, _, _ => by simp at hlen
  | [a], [b], _, _, _, h => by rw [show a = b from h]
  | [a], b :: b2 :: bs, hlen, _, _, _ => by simp at hlen
  | a :: a2 :: as, [b], hlen, _, _, _ => by simp at hlen
  | a :: a2 :: as, b :: b2 :: bs, hlen, hpa, hpb, h => by
    simp only [joinL] at h
    rw [List.append_assoc, List.append_assoc, List.singleton_append, List.singleton_append] at h
    obtain ⟨h1, h2⟩ := append_sep_inj (hpa a (by simp)) (hpb b (by simp)) h
    have := joinL_pipe_inj (a2 :: as) (b2 :: bs) (by simpa using hlen)
      (fun l hl => hpa l (List.mem_cons_of_mem _ hl))
      (fun l hl => hpb l (List.mem_cons_of_mem _ hl)) h2
    rw [h1, this]

/-- Extraction form of map_feed_row. -/
theorem map_feed_row_eq_some {src : SourceRow} {fr : FeedRow} :
    map_feed_row src = some fr ↔ required_ok src = true ∧ fr = mk_feed_row src := by
  unfold map_feed_row
  cases h : required_ok src <;> simp [h, eq_comm]

/-- The unique id of a built row, written through rawOf. -/
theorem mk_feed_row_id (src : SourceRow) :
    (mk_feed_row src).id = groupIdOf src ++ "_" ++ sha1Hex10 (rawOf src) := by
  show stable_unique_id (groupIdOf src) (pyStrip src.store) (pyStrip src.keyword)
      (pyStrip src.remark) (pyStrip src.link) (pyStrip src.image_url)
      (pyStrip src.commission) (pyStrip src.status) = _
  unfold stable_unique_id rawOf trackedOf
  rw [pyStrip_idem, pyStrip_idem, pyStrip_idem, pyStrip_idem, pyStrip_idem, pyStrip_idem,
    pyStrip_idem]

/-- Appending distinct suffixes to one prefix gives distinct strings. -/
theorem append_left_cancel_str {p d1 d2 : String} : (p ++ d1 = p ++ d2) ↔ d1 = d2 := by
  constructor
  · intro h
    rw [String.ext_iff, String.data_append, String.data_append] at h
    exact String.ext (List.append_cancel_left h)
  · intro h
    rw [h]

/-- The joined hash input decomposed at the first separator. -/
theorem rawOf_data (r : SourceRow) :
    (rawOf r).data =
      (groupIdOf r).data ++ '|' :: joinL ['|'] ((trackedOf r).map String.data) := by
  show joinL ['|'] ((groupIdOf r :: trackedOf r).map String.data) = _
  rw [List.map_cons]
  show (groupIdOf r).data ++ ['|'] ++ joinL ['|'] ((trackedOf r).map String.data) = _
  rw [List.append_assoc, List.singleton_append]

theorem rawOf_ne {r1 r2 : SourceRow} (hb : groupIdOf r1 = groupIdOf r2)
    (hp1 : pipeFree r1) (hp2 : pipeFree r2) (hne : trackedOf r1 ≠ trackedOf r2) :
    rawOf r1 ≠ rawOf r2 := by
  intro h
  apply hne
  have hd := congrArg String.data h
  rw [rawOf_data, rawOf_data, hb] at hd
  have h2 := List.append_cancel_left hd
  injection h2 with _ h3
  have hmaps := joinL_pipe_inj ((trackedOf r1).map String.data)
    ((trackedOf r2).map String.data) (by simp [trackedOf])
    (fun l hl => by
      obtain ⟨f, hf, rfl⟩ := List.mem_map.mp hl
      exact hp1 f hf)
    (fun l hl => by
      obtain ⟨f, hf, rfl⟩ := List.mem_map.mp hl
      exact hp2 f hf) h3
  exact List.map_injective_iff.mpr (fun a b hab => String.ext hab) hmaps

/-! Claim theorems. -/

set_option maxRecDepth 100000 in
/-- C1, counterexample: the rows exC1a and exC1b both pass the required
field check, agree on the normalized (market, asin) pair, and differ
after trimming in the tracked store and keyword fields, yet build_rows
assigns the two rows equal unique ids: the pipe join of their tracked
fields produces one and the same hash input, so the claimed distinctness
fails. -/
theorem C1_counterexample :
    pyStrip exC1a.store ≠ pyStrip exC1b.store
    ∧ pyStrip exC1a.keyword ≠ pyStrip exC1b.keyword
    ∧ normalize_market exC1a.market = normalize_market exC1b.market
    ∧ normalize_asin exC1a.asin = normalize_asin exC1b.asin
    ∧ required_ok exC1a = true
    ∧ required_ok exC1b = true
    ∧ (build_rows [exC1a, exC1b]).length = 2
    ∧ ¬ (feedIds [exC1a, exC1b]).Nodup := by
  decide

/-- C1, amended: two validated rows with the same normalized
(market, asin) always receive the same group id, and identical trimmed
tracked fields always give identical unique ids; their unique ids are
distinct exactly when the truncated SHA-1 digests of their pipe-joined
tracked-field strings are distinct, and when no tracked field contains
the pipe separator, rows differing in a tracked field do produce
distinct joined strings (so only a truncated-digest collision can then
make the ids coincide). -/
theorem C1_identifier_amended (r1 r2 : SourceRow) (f1 f2 : FeedRow)
    (h1 : map_feed_row r1 = some f1) (h2 : map_feed_row r2 = some f2)
    (hm : normalize_market r1.market = normalize_market r2.market)
    (ha : normalize_asin r1.asin = normalize_asin r2.asin) :
    f1.item_group_id = f2.item_group_id
    ∧ (trackedOf r1 = trackedOf r2 → f1.id = f2.id)
    ∧ (f1.id = f2.id ↔ sha1Hex10 (rawOf r1) = sha1Hex10 (rawOf r2))
    ∧ (pipeFree r1 → pipeFree r2 → trackedOf r1 ≠ trackedOf r2 → rawOf r1 ≠ rawOf r2) := by
  obtain ⟨hv1, rfl⟩ := map_feed_row_eq_some.mp h1
  obtain ⟨hv2, rfl⟩ := map_feed_row_eq_some.mp h2
  have hbase : groupIdOf r1 = groupIdOf r2 := by
    unfold groupIdOf
    rw [hm, ha]
  refine ⟨hbase, ?_, ?_, fun hp1 hp2 hne => rawOf_ne hbase hp1 hp2 hne⟩
  · intro ht
    rw [mk_feed_row_id, mk_feed_row_id, hbase]
    have hr : rawOf r1 = rawOf r2 := by
      unfold rawOf
      rw [hbase, ht]
    rw [hr]
  · rw [mk_feed_row_id, mk_feed_row_id, hbase]
    exact append_left_cancel_str

set_option maxRecDepth 100000 in
/-- Witness for C1 amended: two pipe-free rows differing only in store
get the same group id and, their digests differing, distinct ids. -/
theorem C1_identifier_amended_witness :
    (mk_feed_row exW1).item_group_id = (mk_feed_row exW2).item_group_id
    ∧ (mk_feed_row exW1).id ≠ (mk_feed_row exW2).id := by
  have h := C1_identifier_amended exW1 exW2 (mk_feed_row exW1) (mk_feed_row exW2)
    (map_feed_row_eq_some.mpr ⟨by decide, rfl⟩)
    (map_feed_row_eq_some.mpr ⟨by decide, rfl⟩) rfl rfl
  refine ⟨h.1, fun he => absurd (h.2.2.1.mp he) (by decide)⟩

/-! Description lemmas for C8. -/

theorem descLines_cases {a b c x : String} (hx : x ∈ descLines a b c) :
    (a ≠ "" ∧ x = "Keyword: " ++ a) ∨ (b ≠ "" ∧ x = "Store: " ++ b) ∨
    (c ≠ "" ∧ x = "remark: " ++ c) := by
  unfold descLines at hx
  by_cases ha : a = "" <;> by_cases hb : b = "" <;> by_cases hc : c = "" <;>
    simp [ha, hb, hc] at hx <;> tauto

theorem pyStrip_data_ne_nil {k : String} (h : pyStrip k ≠ "") : (pyStrip k).data ≠ [] :=
  fun hnil => h (String.ext hnil)

theorem line_head_fact {label f : String} {c0 : Char} (hl : label.data.head? = some c0) :
    ((label ++ f).data).head? = some c0 := by
  rw [String.data_append, List.head?_append, hl]
  rfl

theorem line_last_fact {label k : String} (hne : pyStrip k ≠ "") :
    ∃ c, ((label ++ pyStrip k).data).getLast? = some c ∧ isPySpace c = false := by
  have hd := pyStrip_data_ne_nil hne
  refine ⟨(pyStrip k).data.getLast hd, ?_, ?_⟩
  · rw [String.data_append, List.getLast?_append, List.getLast?_eq_getLast _ hd]
    rfl
  · exact stripL_last_not _ (List.getLast?_eq_getLast _ hd)

theorem strip_join_descLines (k s r : String) :
    pyStrip (pyJoinNL (descLines (pyStrip k) (pyStrip s) (pyStrip r))) =
      pyJoinNL (descLines (pyStrip k) (pyStrip s) (pyStrip r)) := by
  apply String.ext
  show stripL (joinL ['\n'] ((descLines (pyStrip k) (pyStrip s) (pyStrip r)).map String.data)) = _
  apply stripL_eq_self
  · apply joinL_head_not
    intro l hl
    obtain ⟨x, hx, rfl⟩ := List.mem_map.mp hl
    rcases descLines_cases hx with ⟨_, rfl⟩ | ⟨_, rfl⟩ | ⟨_, rfl⟩
    · exact ⟨'K', line_head_fact rfl, by decide⟩
    · exact ⟨'S', line_head_fact rfl, by decide⟩
    · exact ⟨'r', line_head_fact rfl, by decide⟩
  · apply joinL_last_not
    intro l hl
    obtain ⟨x, hx, rfl⟩ := List.mem_map.mp hl
    rcases descLines_cases hx with ⟨hne, rfl⟩ | ⟨hne, rfl⟩ | ⟨hne, rfl⟩
    · exact line_last_fact hne
    · exact line_last_fact hne
    · exact line_last_fact hne

/-- C8: for every valid row the description equals the newline join of
the present-only labeled lines for keyword, store and remark, in that
fixed order; a field empty after trimming contributes no line, and when
all three are empty the description is the empty string. The trailing
strip the code applies to the join is the identity on it. -/
theorem C8_description (src : SourceRow) (fr : FeedRow) (h : map_feed_row src = some fr) :
    fr.description =
      pyJoinNL (descLines (pyStrip src.keyword) (pyStrip src.store) (pyStrip src.remark))
    ∧ (pyStrip src.keyword = "" ∧ pyStrip src.store = "" ∧ pyStrip src.remark = "" →
        fr.description = "") := by
  obtain ⟨hv, rfl⟩ := map_feed_row_eq_some.mp h
  constructor
  · exact strip_join_descLines src.keyword src.store src.remark
  · rintro ⟨hk, hs, hr⟩
    show pyStrip (pyJoinNL (descLines (pyStrip src.keyword) (pyStrip src.store)
      (pyStrip src.remark))) = ""
    rw [hk, hs, hr]
    rfl

/-- C6: the parser distinguishes a parsed zero, some Decimal 0, from the
absent value none; and a validated row whose price cell parses to none
stays in the output with the zero substituted, its price field reading
0.00 in the market currency. -/
theorem C6_zero_price (src : SourceRow) (hv : required_ok src = true)
    (hp : parse_price src.discount_price = none) :
    parse_price ("0") = some ⟨0, 0⟩
    ∧ parse_price ("0") ≠ none
    ∧ ∃ fr, map_feed_row src = some fr ∧
        fr.price = "0.00 " ++ currency_by_market (normalize_market src.market) := by
  refine ⟨by decide, by decide, mk_feed_row src, map_feed_row_eq_some.mpr ⟨hv, rfl⟩, ?_⟩
  show formatDec2 ((parse_price src.discount_price).getD ⟨0, 0⟩) ++ " " ++
    currency_by_market (normalize_market src.market) = _
  rw [hp]
  rw [show formatDec2 ((none : Option PyDecimal).getD ⟨0, 0⟩) = "0.00" from by decide]
  rw [show ("0.00" ++ " " : String) = "0.00 " from by decide]

/-- Witness for C6 at a row whose price cell has no digit. -/
theorem C6_zero_price_witness :
    parse_price ("0") = some ⟨0, 0⟩
    ∧ parse_price ("0") ≠ none
    ∧ ∃ fr, map_feed_row exNoPrice = some fr ∧
        fr.price = "0.00 " ++ currency_by_market (normalize_market exNoPrice.market) :=
  C6_zero_price exNoPrice (by decide) (by decide)

set_option maxRecDepth 100000 in
/-- C7: every valid row's price field is the parsed amount, zero when
absent, rendered with exactly two fractional digits, one space and the
currency of the market from the static table; a market outside the
table falls back to USD; and the spec example, market US with price
written 19.99 dollars, renders exactly 19.99 USD. -/
theorem C7_price_field (src : SourceRow) (fr : FeedRow) (h : map_feed_row src = some fr) :
    fr.price = formatDec2 ((parse_price src.discount_price).getD ⟨0, 0⟩) ++ " " ++
      currency_by_market (normalize_market src.market)
    ∧ (∀ m : String, m ∉ (["US", "UK", "DE", "FR", "IT", "ES", "CA", "JP"] : List String) →
        currency_by_market m = "USD")
    ∧ (build_rows [exUS]).map FeedRow.price = ["19.99 USD"] := by
  obtain ⟨hv, rfl⟩ := map_feed_row_eq_some.mp h
  refine ⟨rfl, ?_, by decide⟩
  intro m hm
  unfold currency_by_market
  split_ifs with h1 h2 h3 h4 h5 h6 h7 h8
  · rfl
  · exact absurd (by simp [h2]) hm
  · exact absurd (by simp [h3]) hm
  · exact absurd (by simp [h4]) hm
  · exact absurd (by simp [h5]) hm
  · exact absurd (by simp [h6]) hm
  · exact absurd (by simp [h7]) hm
  · exact absurd (by simp [h8]) hm
  · rfl

set_option maxRecDepth 100000 in
/-- Witness for C7 at the spec example row. -/
theorem C7_price_field_witness :
    (mk_feed_row exUS).price = formatDec2 ((parse_price exUS.discount_price).getD ⟨0, 0⟩) ++
      " " ++ currency_by_market (normalize_market exUS.market)
    ∧ (∀ m : String, m ∉ (["US", "UK", "DE", "FR", "IT", "ES", "CA", "JP"] : List String) →
        currency_by_market m = "USD")
    ∧ (build_rows [exUS]).map FeedRow.price = ["19.99 USD"] :=
  C7_price_field exUS (mk_feed_row exUS) (map_feed_row_eq_some.mpr ⟨by decide, rfl⟩)

/-- Witness for C8 at a row with padded keyword, store and remark. -/
theorem C8_description_witness :
    (mk_feed_row exDesc).description =
      pyJoinNL (descLines (pyStrip exDesc.keyword) (pyStrip exDesc.store)
        (pyStrip exDesc.remark))
    ∧ (pyStrip exDesc.keyword = "" ∧ pyStrip exDesc.store = "" ∧ pyStrip exDesc.remark = "" →
        (mk_feed_row exDesc).description = "") :=
  C8_description exDesc (mk_feed_row exDesc) (map_feed_row_eq_some.mpr ⟨by decide, rfl⟩)

/-- C9: a validated, normalized site row whose market is not among the
configured markets appears neither in the merged index items nor in any
configured per-market page items: it is dropped from every generated
page. -/
theorem C9_unconfigured_market_dropped (markets : List String) (srcs : List SourceRow)
    (row : SiteRow) (_hrow : row ∈ srcs.filterMap map_row)
    (hnot : ∀ m ∈ markets, pyUpper (pyStrip m) ≠ row.market) :
    row ∉ all_items markets (srcs.filterMap map_row)
    ∧ ∀ m ∈ markets, row ∉ market_items (srcs.filterMap map_row) (pyUpper (pyStrip m)) := by
  have hmem : ∀ m ∈ markets, row ∉ market_items (srcs.filterMap map_row) (pyUpper (pyStrip m)) := by
    intro m hm hin
    rw [market_items, List.mem_insertionSort] at hin
    have hf := (List.mem_filter.mp hin).2
    exact hnot m hm (of_decide_eq_true hf).symm
  refine ⟨?_, hmem⟩
  intro hin
  rw [all_items, List.mem_insertionSort, List.mem_flatMap] at hin
  obtain ⟨m, hm, hin2⟩ := hin
  exact hmem m hm hin2

/-- Witness for C9: a row with market ZZ is on no page when only US is
configured. -/
theorem C9_unconfigured_market_dropped_witness :
    exZZsite ∉ all_items ["US"] ([exZZ].filterMap map_row)
    ∧ ∀ m ∈ (["US"] : List String),
        exZZsite ∉ market_items ([exZZ].filterMap map_row) (pyUpper (pyStrip m)) :=
  C9_unconfigured_market_dropped ["US"] [exZZ] exZZsite (by decide) (by decide)

/-! Escaping lemmas for C10. -/

theorem replaceChar_cons (c : Char) (rep : List Char) (x : Char) (xs : List Char) :
    replaceChar c rep (x :: xs) =
      if x = c then rep ++ replaceChar c rep xs else x :: replaceChar c rep xs := rfl

theorem replaceChar_append (c : Char) (rep : List Char) :
    ∀ a b : List Char,
      replaceChar c rep (a ++ b) = replaceChar c rep a ++ replaceChar c rep b
  | [], b => rfl
  | x :: a, b => by
    rw [List.cons_append, replaceChar_cons, replaceChar_cons]
    by_cases hx : x = c
    · rw [if_pos hx, if_pos hx, replaceChar_append c rep a b, List.append_assoc]
    · rw [if_neg hx, if_neg hx, replaceChar_append c rep a b, List.cons_append]

theorem escAll_eq : ∀ l : List Char, escAll l = l.flatMap escChar
  | [] => rfl
  | x :: xs => by
    rw [List.flatMap_cons, ← escAll_eq xs]
    unfold escAll
    by_cases h1 : x = '&'
    · subst h1
      rw [replaceChar_cons, if_pos rfl]
      simp only [replaceChar_append]
      rw [show replaceChar '"' ("&quot;".data) (replaceChar '>' ("&gt;".data)
          (replaceChar '<' ("&lt;".data) ("&amp;".data))) = "&amp;".data from by decide]
      rw [show escChar '&' = "&amp;".data from by decide]
    · by_cases h2 : x = '<'
      · subst h2
        rw [replaceChar_cons, if_neg (by decide), replaceChar_cons, if_pos rfl]
        simp only [replaceChar_append]
        rw [show replaceChar '"' ("&quot;".data) (replaceChar '>' ("&gt;".data)
            ("&lt;".data)) = "&lt;".data from by decide]
        rw [show escChar '<' = "&lt;".data from by decide]
      · by_cases h3 : x = '>'
        · subst h3
          rw [replaceChar_cons, if_neg (by decide), replaceChar_cons, if_neg (by decide),
            replaceChar_cons, if_pos rfl]
          simp only [replaceChar_append]
          rw [show replaceChar '"' ("&quot;".data) ("&gt;".data) = "&gt;".data from by decide]
          rw [show escChar '>' = "&gt;".data from by decide]
        · by_cases h4 : x = '"'
          · subst h4
            rw [replaceChar_cons, if_neg (by decide), replaceChar_cons, if_neg (by decide),
              replaceChar_cons, if_neg (by decide), replaceChar_cons, if_pos rfl]
            rw [show escChar '"' = "&quot;".data from by decide]
          · rw [replaceChar_cons, if_neg h1, replaceChar_cons, if_neg h2,
              replaceChar_cons, if_neg h3, replaceChar_cons, if_neg h4]
            rw [show escChar x = [x] from by simp [escChar, h1, h2, h3, h4]]
            rw [List.singleton_append]

theorem escSeq_flatMap : ∀ l : List Char, EscSeq (l.flatMap escChar)
  | [] => EscSeq.nil
  | x :: xs => by
    rw [List.flatMap_cons]
    by_cases h1 : x = '&'
    · subst h1
      exact EscSeq.amp _ (escSeq_flatMap xs)
    · by_cases h2 : x = '<'
      · subst h2
        exact EscSeq.lt _ (escSeq_flatMap xs)
      · by_cases h3 : x = '>'
        · subst h3
          exact EscSeq.gt _ (escSeq_flatMap xs)
        · by_cases h4 : x = '"'
          · subst h4
            exact EscSeq.quot _ (escSeq_flatMap xs)
          · rw [show escChar x = [x] from by simp [escChar, h1, h2, h3, h4],
              List.singleton_append]
            exact EscSeq.other x _ h1 (escSeq_flatMap xs)

/-- C10: each product card of product_grid interpolates exactly the five
item fields image, title (twice), description, price and link, each
passed through safe_html, between the fixed template literals; and for
every input the output of safe_html contains no angle bracket and no
double quote, and every ampersand in it starts one of the four escape
sequences safe_html itself emits. -/
theorem C10_card_escaping (it : SiteRow) :
    product_card it = cardA ++ safe_html it.image ++ cardB ++ safe_html it.title ++ cardC ++
      safe_html it.title ++ cardD ++ safe_html it.desc ++ cardE ++ safe_html it.price ++
      cardF ++ safe_html it.link ++ cardG
    ∧ ∀ s : String, (∀ c ∈ (safe_html s).data, c ≠ '<' ∧ c ≠ '>' ∧ c ≠ '"')
        ∧ EscSeq (safe_html s).data := by
  refine ⟨rfl, fun s => ⟨?_, ?_⟩⟩
  · intro c hc
    have hrw : (safe_html s).data = s.data.flatMap escChar := escAll_eq s.data
    rw [hrw] at hc
    obtain ⟨x, hx, hcx⟩ := List.mem_flatMap.mp hc
    by_cases h1 : x = '&'
    · subst h1
      exact (by decide : ∀ y ∈ escChar '&', y ≠ '<' ∧ y ≠ '>' ∧ y ≠ '"') c hcx
    · by_cases h2 : x = '<'
      · subst h2
        exact (by decide : ∀ y ∈ escChar '<', y ≠ '<' ∧ y ≠ '>' ∧ y ≠ '"') c hcx
      · by_cases h3 : x = '>'
        · subst h3
          exact (by decide : ∀ y ∈ escChar '>', y ≠ '<' ∧ y ≠ '>' ∧ y ≠ '"') c hcx
        · by_cases h4 : x = '"'
          · subst h4
            exact (by decide : ∀ y ∈ escChar '"', y ≠ '<' ∧ y ≠ '>' ∧ y ≠ '"') c hcx
          · rw [show escChar x = [x] from by simp [escChar, h1, h2, h3, h4]] at hcx
            rw [List.mem_singleton.mp hcx]
            exact ⟨h2, h3, h4⟩
  · show EscSeq (escAll s.data)
    rw [escAll_eq]
    exact escSeq_flatMap s.data

/-- C2: build_rows is a deterministic function of its input: running the
transform twice on the same input list yields the same output rows, the
same unique ids and the same order both times. -/
theorem C2_build_rows_deterministic (src1 src2 : List SourceRow) (h : src1 = src2) :
    build_rows src1 = build_rows src2 ∧
    (build_rows src1).map FeedRow.id = (build_rows src2).map FeedRow.id := by
  subst h
  exact ⟨rfl, rfl⟩

/-- Witness for C2 at a concrete input row. -/
theorem C2_build_rows_deterministic_witness :
    build_rows [exUS] = build_rows [exUS] ∧
    (build_rows [exUS]).map FeedRow.id = (build_rows [exUS]).map FeedRow.id :=
  C2_build_rows_deterministic [exUS] [exUS] rfl

/-- C4: a source row maps to no output row exactly when market, asin,
title, link or image url is empty after trimming, in the feed script and
in the site script alike; the mapping is a total function (skipping,
never raising), and the output length is the input length minus the
number of rejected rows. -/
theorem C4_row_rejection (srcs : List SourceRow) (src : SourceRow) :
    (map_feed_row src = none ↔ missingRequired src)
    ∧ (map_row src = none ↔ missingRequired src)
    ∧ (build_rows srcs).length =
        srcs.length - srcs.countP (fun s => (map_feed_row s).isNone) := by
  refine ⟨map_feed_row_eq_none, map_row_eq_none, ?_⟩
  have h := length_filterMap_add_countP map_feed_row srcs
  have h2 : (build_rows srcs).length = (srcs.filterMap map_feed_row).length :=
    List.length_insertionSort _ _
  omega

/-- C5: build_rows returns a permutation of the feed rows its loop
constructed, sorted ascending by the composite key
(item group id, title, link, unique id); the key comparison is total and
transitive, and mutually comparable rows have identical keys, the unique
id breaking all remaining ties among the other components. -/
theorem C5_sorted_permutation (srcs : List SourceRow) :
    (build_rows srcs).Perm (srcs.filterMap map_feed_row)
    ∧ List.Pairwise (fun a b => keyLE a b = true) (build_rows srcs)
    ∧ (∀ a b : FeedRow, keyLE a b = true ∨ keyLE b a = true)
    ∧ (∀ a b : FeedRow, keyLE a b = true → keyLE b a = true → feedKey a = feedKey b) := by
  refine ⟨List.perm_insertionSort _ _, ?_, ?_, fun a b h1 h2 => keyLE_antisymm h1 h2⟩
  · haveI : IsTotal FeedRow (fun a b => keyLE a b = true) :=
      ⟨fun a b => (Bool.or_eq_true _ _).mp (keyLE_total a b)⟩
    haveI : IsTrans FeedRow (fun a b => keyLE a b = true) :=
      ⟨fun _ _ _ h1 h2 => keyLE_trans h1 h2⟩
    exact List.sorted_insertionSort _ _
  · intro a b
    exact (Bool.or_eq_true _ _).mp (keyLE_total a b)

end WaCatalog
